import Mathlib

set_option maxHeartbeats 1000000

namespace Sekas

/-!
Shallow embedding of the sekas group client retry state machine, translated
from `src/src/client/src/group_client.rs`. Byte strings are modelled as
lists of natural numbers under lexicographic order. Identifiers (group,
node, replica, shard ids, epochs, terms) are natural numbers.
-/

/-- Lexicographic strict order on byte strings, as Rust orders byte slices. -/
def byteLt : List Nat → List Nat → Bool
  | [], [] => false
  | [], _ :: _ => true
  | _ :: _, [] => false
  | a :: xs, b :: ys => if a < b then true else if a == b then byteLt xs ys else false

/-- Lexicographic non-strict order on byte strings. -/
def byteLe (a b : List Nat) : Bool := !(byteLt b a)

structure ReplicaDesc where
  id : Nat
  node_id : Nat
  role : Nat
deriving DecidableEq, Repr

/-- Shard descriptor with its half-open key range; the nested protobuf
`range` message is flattened into `range_start` and `range_end`. -/
structure ShardDesc where
  id : Nat
  table_id : Nat
  range_start : List Nat
  range_end : List Nat
deriving DecidableEq, Repr

structure GroupDesc where
  id : Nat
  epoch : Nat
  shards : List ShardDesc
  replicas : List ReplicaDesc
deriving DecidableEq, Repr

structure GetRequest where
  shard_id : Nat
  user_key : List Nat
deriving DecidableEq, Repr

structure ScanRequest where
  shard_id : Nat
deriving DecidableEq, Repr

structure PutRequest where
  key : List Nat
  value : List Nat
deriving DecidableEq, Repr

structure DeleteRequest where
  key : List Nat
deriving DecidableEq, Repr

structure WriteRequest where
  shard_id : Nat
  puts : List PutRequest
  deletes : List DeleteRequest
deriving DecidableEq, Repr

inductive WriteIntentWrite where
  | Delete (delete : DeleteRequest)
  | Put (put : PutRequest)
deriving DecidableEq, Repr

structure WriteIntentRequest where
  shard_id : Nat
  write : Option WriteIntentWrite
deriving DecidableEq, Repr

structure CommitIntentRequest where
  shard_id : Nat
  user_key : List Nat
deriving DecidableEq, Repr

structure ClearIntentRequest where
  shard_id : Nat
  user_key : List Nat
deriving DecidableEq, Repr

/-- The group request union. Variants whose payload the group client never
inspects are carried without fields. -/
inductive Request where
  | Get (req : GetRequest)
  | Scan (req : ScanRequest)
  | Write (req : WriteRequest)
  | WriteIntent (req : WriteIntentRequest)
  | CommitIntent (req : CommitIntentRequest)
  | ClearIntent (req : ClearIntentRequest)
  | WatchKey
  | CreateShard
  | ChangeReplicas
  | Transfer
  | MoveReplicas
  | SplitShard
  | MergeShard
  | AcceptShard
deriving DecidableEq, Repr

/-- The error variants the retry loop distinguishes. Payloads that the group
client never reads (status text, connection details) are dropped. -/
inductive Error where
  | GroupNotFound (group_id : Nat)
  | NotLeader (group_id : Nat) (term : Nat) (leader : Option ReplicaDesc)
  | Connect
  | Transport
  | EpochNotMatch (desc : GroupDesc)
  | CasFailed
  | InvalidArgument
  | TxnConflict
  | GroupNotAccessable (group_id : Nat)
  | DeadlineExceeded
  | Internal
deriving DecidableEq, Repr

structure InvokeOpt where
  request : Option Request
  accurate_epoch : Bool
  ignore_transport_error : Bool
deriving DecidableEq, Repr

/-- Router snapshot of a group. The replica mapping is modelled as an
association list from replica id to descriptor; iteration over the map
values follows the list order. -/
structure RouterGroupState where
  id : Nat
  epoch : Nat
  replicas : List (Nat × ReplicaDesc)
  leader_state : Option (Nat × Nat)
deriving DecidableEq, Repr

/-- The group client routing state. The network-facing fields of the Rust
struct (the sekas client handle, per-node transports, timeout) do not take
part in the routing decisions and are left out. -/
structure GroupClient where
  group_id : Nat
  epoch : Nat
  leader_state : Option (Nat × Nat)
  replicas : List ReplicaDesc
  access_node_id : Option Nat
  next_access_index : Nat
deriving DecidableEq, Repr

/-- Modelled from the spec: the function `sekas_schema::shard::belong_to`,
whose defining module is not among the sources at hand. Per the spec a
shard range is half-open `[start, end)` under byte-lexicographic order,
with an empty `end` denoting plus infinity (an empty `start` is the least
byte string, hence already denotes minus infinity). -/
def belong_to (s : ShardDesc) (key : List Nat) : Bool :=
  byteLe s.range_start key && (s.range_end.isEmpty || byteLt key s.range_end)

def is_read_only_request (request : Request) : Bool :=
  match request with
  | .Get _ => true
  | .Scan _ => true
  | _ => false

def is_target_shard_exists (desc : GroupDesc) (shard_id : Nat) (key : List Nat) : Bool :=
  match desc.shards.find? (fun s => s.id == shard_id) with
  | some s => belong_to s key
  | none => false

def is_all_target_shard_exists (descriptor : GroupDesc) (shard_id : Nat)
    (deletes : List DeleteRequest) (puts : List PutRequest) : Bool :=
  if !(deletes.all (fun delete => is_target_shard_exists descriptor shard_id delete.key)) then
    false
  else if !(puts.all (fun put => is_target_shard_exists descriptor shard_id put.key)) then
    false
  else
    true

def is_executable (descriptor : GroupDesc) (request : Request) : Bool :=
  match request with
  | .Get req => is_target_shard_exists descriptor req.shard_id req.user_key
  | .Write req => is_all_target_shard_exists descriptor req.shard_id req.deletes req.puts
  | .WriteIntent req =>
    match req.write with
    | some (.Delete delete) => is_target_shard_exists descriptor req.shard_id delete.key
    | some (.Put put) => is_target_shard_exists descriptor req.shard_id put.key
    | none => false
  | .CommitIntent req => is_target_shard_exists descriptor req.shard_id req.user_key
  | .ClearIntent req => is_target_shard_exists descriptor req.shard_id req.user_key
  | _ => false

/-- Rust `Iterator::position`: index of the first element satisfying the
predicate. -/
def position (p : α → Bool) : List α → Option Nat
  | [] => none
  | x :: xs => if p x then some 0 else (position p xs).map (· + 1)

/-- Rust slice `swap`. Out-of-range indices leave the list unchanged; the
callers below only ever use in-range indices. -/
def listSwap (l : List α) (i j : Nat) : List α :=
  match l.get? i, l.get? j with
  | some a, some b => (l.set i b).set j a
  | _, _ => l

def move_node_to_first_element (replicas : List ReplicaDesc) (node_id : Nat) :
    List ReplicaDesc :=
  match position (fun replica => replica.node_id == node_id) replicas with
  | some idx => if idx != 0 then listSwap replicas 0 idx else replicas
  | none => replicas

def move_replica_to_first_element (replicas : List ReplicaDesc) (replica : ReplicaDesc) :
    List ReplicaDesc :=
  match position (fun r => r.node_id == replica.node_id) replicas with
  | some idx => if idx != 0 then listSwap replicas 0 idx else replicas
  | none =>
    let rs := replicas ++ [replica]
    let idx := rs.length - 1
    if idx != 0 then listSwap rs 0 idx else rs

def assoc_find (replicas : List (Nat × ReplicaDesc)) (key : Nat) : Option ReplicaDesc :=
  (replicas.find? (fun entry => entry.fst == key)).map (·.snd)

def apply_group_state (c : GroupClient) (group : RouterGroupState) : GroupClient :=
  let leader_node_id :=
    (group.leader_state.bind (fun p => assoc_find group.replicas p.fst)).map (·.node_id)
  let c' := { c with
    leader_state := group.leader_state
    epoch := group.epoch
    replicas := group.replicas.map (·.snd) }
  match leader_node_id with
  | some node_id => { c' with replicas := move_node_to_first_element c'.replicas node_id }
  | none => c'

/-- Advance the replica cursor. In Rust an empty replicas list would panic on
the modulo; here the empty case yields `none`, and every theorem below that
exercises this function assumes a non-empty list. -/
def next_access_node_id (c : GroupClient) : Option Nat × GroupClient :=
  if c.next_access_index ≤ c.replicas.length then
    match c.replicas.get? (c.next_access_index % c.replicas.length) with
    | some replica =>
      (some replica.node_id, { c with next_access_index := c.next_access_index + 1 })
    | none => (none, c)
  else
    (none, c)

/-- Pick the node for the next attempt. Transport construction
(`fetch_client`) is modelled as always succeeding, so the Rust inner loop
that skips unreachable nodes collapses to a single step. -/
def recommend_client (c : GroupClient) : Option Nat × GroupClient :=
  match c.access_node_id with
  | some node_id => (some node_id, c)
  | none =>
    match next_access_node_id c with
    | (some node_id, c') => (some node_id, { c' with access_node_id := some node_id })
    | (none, c') => (none, c')

def apply_not_leader_status (c : GroupClient) (term : Nat) (leader_desc : Option ReplicaDesc) :
    GroupClient :=
  let c' := { c with access_node_id := none }
  match leader_desc with
  | none => c'
  | some leader =>
    if !((c'.leader_state.map (fun p => decide (term ≤ p.snd))).getD false) then
      { c' with
        access_node_id := some leader.node_id
        leader_state := some (leader.id, term)
        replicas := move_replica_to_first_element c'.replicas leader }
    else
      c'

/-- Result of applying one failure status: continue retrying with the updated
state, surface an error (the state is the one at the moment of surfacing),
or abort the process (the Rust code panics). -/
inductive ApplyResult where
  | ok (c : GroupClient)
  | err (c : GroupClient) (e : Error)
  | fatal
deriving DecidableEq, Repr

def apply_epoch_not_match_status (c : GroupClient) (group_desc : GroupDesc)
    (opt : InvokeOpt) : ApplyResult :=
  if opt.accurate_epoch then
    .err c (.EpochNotMatch group_desc)
  else if group_desc.epoch ≤ c.epoch then
    .fatal
  else if (opt.request.map (fun r => !(is_executable group_desc r))).getD false then
    .err c (.EpochNotMatch group_desc)
  else
    .ok { c with
      replicas := move_node_to_first_element group_desc.replicas (c.access_node_id.getD 0)
      epoch := group_desc.epoch
      next_access_index := 1 }

def apply_status (c : GroupClient) (e : Error) (opt : InvokeOpt) : ApplyResult :=
  match e with
  | .GroupNotFound _ => .ok { c with access_node_id := none }
  | .NotLeader _ term leader_desc => .ok (apply_not_leader_status c term leader_desc)
  | .Connect => .ok { c with access_node_id := none }
  | .Transport =>
    if opt.ignore_transport_error || (opt.request.map is_read_only_request).getD false then
      .ok { c with access_node_id := none }
    else
      .err c .Transport
  | .EpochNotMatch group_desc => apply_epoch_not_match_status c group_desc opt
  | other => .err c other

/-- Outcome of a whole call. `scriptOver` marks exhaustion of the supplied
attempt script while the loop was still running. -/
inductive CallResult where
  | success (c : GroupClient)
  | failure (c : GroupClient) (e : Error)
  | fatal
  | scriptOver (c : GroupClient)
deriving DecidableEq, Repr

/-- The retry loop of `invoke_with_opt`, driven by a script that assigns to
each attempt either success (`none`) or a typed error (`some e`). Deadlines
are modelled as absent (no timeout armed). -/
def invoke_steps (opt : InvokeOpt) : GroupClient → List (Option Error) → CallResult
  | c, [] =>
    match recommend_client c with
    | (none, c') => .failure c' (.GroupNotAccessable c.group_id)
    | (some _, c') => .scriptOver c'
  | c, o :: rest =>
    match recommend_client c with
    | (none, c') => .failure c' (.GroupNotAccessable c.group_id)
    | (some _, c') =>
      match o with
      | none => .success c'
      | some e =>
        match apply_status c' e opt with
        | .ok c'' => invoke_steps opt c'' rest
        | .err c'' err => .failure c'' err
        | .fatal => .fatal

/-- `invoke_with_opt`: optional initial state load, cursor reset, then the
retry loop. The router lookup result is passed in as `router`. -/
def invoke_with_opt (router : Option RouterGroupState) (c : GroupClient) (opt : InvokeOpt)
    (outcomes : List (Option Error)) : CallResult :=
  if c.epoch == 0 then
    match router with
    | none => .failure c (.GroupNotAccessable c.group_id)
    | some group_state =>
      let c' := apply_group_state c group_state
      invoke_steps opt { c' with next_access_index := 0 } outcomes
  else
    invoke_steps opt { c with next_access_index := 0 } outcomes

def resultState : CallResult → Option GroupClient
  | .success c => some c
  | .failure c _ => some c
  | .fatal => none
  | .scriptOver c => some c

/-- Iterate `next_access_node_id`, collecting the selected node ids, until it
yields `none` or the fuel runs out. -/
def select_n : GroupClient → Nat → List Nat
  | _, 0 => []
  | c, fuel + 1 =>
    match next_access_node_id c with
    | (some node_id, c') => node_id :: select_n c' fuel
    | (none, _) => []

/-- The invoke options used by `request`. -/
def request_opt (request : Request) : InvokeOpt :=
  { request := some request, accurate_epoch := false, ignore_transport_error := false }

/-- The invoke options used by `watch_key`; `create_shard`,
`remove_group_replica`, `add_replica` and `add_learner` go through `invoke`,
whose default options carry the same values. -/
def watch_key_opt : InvokeOpt :=
  { request := none, accurate_epoch := false, ignore_transport_error := false }

/-- The invoke options used by `move_out`. -/
def move_out_opt : InvokeOpt :=
  { request := none, accurate_epoch := false, ignore_transport_error := true }

/-- Spec reading of shard containment: some shard of the descriptor carries
the given shard id and its range contains the key. -/
def shardContainsKey (desc : GroupDesc) (shard_id : Nat) (key : List Nat) : Prop :=
  ∃ s ∈ desc.shards, s.id = shard_id ∧ belong_to s key = true

/-- The executability predicate as the spec words it: for each keyed request
kind, some shard with the request shard id contains every referenced key; a
batch write passes iff all of its deletes and puts pass individually; every
other kind is not re-routable. -/
def specExecutable (desc : GroupDesc) (request : Request) : Prop :=
  match request with
  | .Get req => shardContainsKey desc req.shard_id req.user_key
  | .Write req =>
    (∀ d ∈ req.deletes, shardContainsKey desc req.shard_id d.key) ∧
      (∀ p ∈ req.puts, shardContainsKey desc req.shard_id p.key)
  | .WriteIntent req =>
    match req.write with
    | some (.Delete d) => shardContainsKey desc req.shard_id d.key
    | some (.Put p) => shardContainsKey desc req.shard_id p.key
    | none => False
  | .CommitIntent req => shardContainsKey desc req.shard_id req.user_key
  | .ClearIntent req => shardContainsKey desc req.shard_id req.user_key
  | _ => False

/-- Spec invariant: when a leader hint is held, the replica at index 0 of
replicas carries the hinted replica id. -/
def leader_at_head (c : GroupClient) : Bool :=
  match c.leader_state with
  | some (replica_id, _) =>
    match c.replicas.head? with
    | some replica => replica.id == replica_id
    | none => false
  | none => true

def applyResultState : ApplyResult → Option GroupClient
  | .ok c => some c
  | .err c _ => some c
  | .fatal => none

/-! ### Helper lemmas -/

theorem position_some {p : α → Bool} :
    ∀ {l : List α} {i : Nat}, position p l = some i →
      ∃ a, l.get? i = some a ∧ p a = true := by
  intro l
  induction l with
  | nil => intro i h; simp [position] at h
  | cons x xs ih =>
    intro i h
    by_cases hx : p x = true
    · simp [position, hx] at h
      exact h ▸ ⟨x, rfl, hx⟩
    · simp [position, hx, Option.map_eq_some'] at h
      obtain ⟨j, hj, hji⟩ := h
      obtain ⟨a, ha, hpa⟩ := ih hj
      exact hji ▸ ⟨a, ha, hpa⟩

theorem position_of_mem {p : α → Bool} :
    ∀ {l : List α}, (∃ a ∈ l, p a = true) → ∃ i, position p l = some i := by
  intro l
  induction l with
  | nil => intro h; simp at h
  | cons x xs ih =>
    intro h
    by_cases hx : p x = true
    · exact ⟨0, by simp [position, hx]⟩
    · obtain ⟨a, ha, hpa⟩ := h
      have hmem : a ∈ xs := by
        cases ha with
        | head => exact absurd hpa hx
        | tail _ h => exact h
      obtain ⟨j, hj⟩ := ih ⟨a, hmem, hpa⟩
      exact ⟨j + 1, by simp [position, hx, hj]⟩

theorem listSwap_get0 {l : List α} {idx : Nat} {b : α} (hne : idx ≠ 0)
    (hb : l.get? idx = some b) :
    (listSwap l 0 idx).get? 0 = some b := by
  match l, idx with
  | [], k + 1 => simp at hb
  | x :: xs, k + 1 =>
    have hxs : xs.get? k = some b := hb
    unfold listSwap
    simp only [List.get?_cons_zero, List.get?_cons_succ, hxs]
    rfl

theorem move_node_head {l : List ReplicaDesc} {n : Nat}
    (h : ∃ r ∈ l, r.node_id = n) :
    ∃ r, (move_node_to_first_element l n).head? = some r ∧ r.node_id = n := by
  have hex : ∃ r ∈ l, (fun r : ReplicaDesc => r.node_id == n) r = true := by
    obtain ⟨r, hr, hn⟩ := h
    exact ⟨r, hr, by simp [hn]⟩
  obtain ⟨i, hi⟩ := position_of_mem hex
  obtain ⟨a, ha, hpa⟩ := position_some hi
  unfold move_node_to_first_element
  rw [hi]
  by_cases h0 : i = 0
  · subst h0
    simp only [bne_self_eq_false, if_false]
    refine ⟨a, ?_, by simpa using hpa⟩
    rw [← List.get?_zero]
    exact ha
  · have : (i != 0) = true := by simpa using h0
    simp only [this, if_true]
    refine ⟨a, ?_, by simpa using hpa⟩
    rw [← List.get?_zero]
    exact listSwap_get0 h0 ha

theorem move_replica_head (l : List ReplicaDesc) (rep : ReplicaDesc) :
    ∃ r, (move_replica_to_first_element l rep).head? = some r ∧
      r.node_id = rep.node_id := by
  unfold move_replica_to_first_element
  cases hpos : position (fun r => r.node_id == rep.node_id) l with
  | some i =>
    obtain ⟨a, ha, hpa⟩ := position_some hpos
    by_cases h0 : i = 0
    · subst h0
      simp only [bne_self_eq_false, if_false]
      refine ⟨a, ?_, by simpa using hpa⟩
      rw [← List.get?_zero]
      exact ha
    · have : (i != 0) = true := by simpa using h0
      simp only [this, if_true]
      refine ⟨a, ?_, by simpa using hpa⟩
      rw [← List.get?_zero]
      exact listSwap_get0 h0 ha
  | none =>
    cases l with
    | nil => exact ⟨rep, rfl, rfl⟩
    | cons x xs =>
      have hlen : (x :: xs ++ [rep]).length - 1 = xs.length + 1 := by
        simp
      have hne : xs.length + 1 ≠ 0 := Nat.succ_ne_zero _
      have hget : (x :: xs ++ [rep]).get? (xs.length + 1) = some rep := by
        have h1 : (x :: xs ++ [rep]).get? (xs.length + 1) = (xs ++ [rep]).get? xs.length := rfl
        rw [h1, List.get?_eq_getElem?, List.getElem?_append_right (Nat.le_refl _)]
        simp
      simp only [hlen]
      have : ((xs.length + 1) != 0) = true := by simp
      simp only [this, if_true]
      refine ⟨rep, ?_, rfl⟩
      rw [← List.get?_zero]
      exact listSwap_get0 hne hget

/-! ### Concrete fixtures used by witnesses and counterexamples -/

def sample_replicas : List ReplicaDesc :=
  [⟨1, 1, 0⟩, ⟨2, 2, 0⟩, ⟨3, 3, 0⟩]

def sample_client : GroupClient :=
  { group_id := 1, epoch := 5, leader_state := some (1, 6),
    replicas := sample_replicas, access_node_id := some 1, next_access_index := 1 }

/-! ### Claim C5 -/

/-- C5 counterexample: a stale NotLeader (reported term 3, local term 6)
still clears the sticky access node id, so the state is not exactly
unchanged as the claim requires. -/
theorem c5_access_node_cleared :
    sample_client.leader_state = some (1, 6) ∧ (3 : Nat) ≤ 6 ∧
      apply_not_leader_status sample_client 3 (some ⟨3, 3, 0⟩) ≠ sample_client := by
  refine ⟨rfl, by decide, ?_⟩
  decide

/-- C5 (amended): a NotLeader status applied while the local leader hint has
a term at least the reported term leaves the leader hint, the epoch, the
replicas sequence and the cursor unchanged, and clears access_node_id. -/
theorem c5_stale_not_leader (c : GroupClient) (term rid lt : Nat)
    (ld : Option ReplicaDesc) (hstate : c.leader_state = some (rid, lt))
    (hterm : term ≤ lt) :
    apply_not_leader_status c term ld = { c with access_node_id := none } := by
  unfold apply_not_leader_status
  cases ld with
  | none => rfl
  | some leader => simp [hstate, hterm]

theorem c5_stale_not_leader_witness :
    apply_not_leader_status sample_client 3 (some ⟨3, 3, 0⟩) =
      { sample_client with access_node_id := none } :=
  c5_stale_not_leader sample_client 3 1 6 (some ⟨3, 3, 0⟩) rfl (by decide)

/-! ### Claim C7 -/

/-- C7: with accurate_epoch false, a remote epoch at most the local epoch
reaches the fatal panic branch of apply_epoch_not_match_status, and under a
strictly greater remote epoch the fatal branch is unreachable. -/
theorem c7_reverse_epoch_fatal (c : GroupClient) (desc : GroupDesc) (opt : InvokeOpt)
    (hacc : opt.accurate_epoch = false) :
    (desc.epoch ≤ c.epoch → apply_epoch_not_match_status c desc opt = .fatal) ∧
      (c.epoch < desc.epoch → apply_epoch_not_match_status c desc opt ≠ .fatal) := by
  constructor
  · intro hle
    unfold apply_epoch_not_match_status
    simp [hacc, hle]
  · intro hlt
    unfold apply_epoch_not_match_status
    simp only [hacc, Bool.false_eq_true, if_false, Nat.not_le.mpr hlt, if_neg]
    split <;> simp

def newer_desc : GroupDesc :=
  { id := 1, epoch := 9, shards := [⟨10, 1, [], []⟩], replicas := [⟨2, 2, 0⟩, ⟨1, 1, 0⟩] }

def staler_desc : GroupDesc :=
  { id := 1, epoch := 5, shards := [], replicas := [⟨2, 2, 0⟩] }

theorem c7_reverse_epoch_fatal_witness :
    apply_epoch_not_match_status sample_client staler_desc watch_key_opt = .fatal ∧
      apply_epoch_not_match_status sample_client newer_desc watch_key_opt ≠ .fatal :=
  ⟨(c7_reverse_epoch_fatal sample_client staler_desc watch_key_opt rfl).1 (by decide),
   (c7_reverse_epoch_fatal sample_client newer_desc watch_key_opt rfl).2 (by decide)⟩

/-! ### Claim C2 -/

/-- C2: with accurate_epoch true, an EpochNotMatch failure is surfaced
immediately with the client state untouched, for every remote descriptor and
every remote epoch (the fatal assertion is unreachable in this mode), and
the retry loop stops at once with that error. -/
theorem c2_accurate_epoch_surfaces (c : GroupClient) (desc : GroupDesc) (opt : InvokeOpt)
    (hacc : opt.accurate_epoch = true) :
    apply_status c (.EpochNotMatch desc) opt = .err c (.EpochNotMatch desc) ∧
      ∀ rest n, c.access_node_id = some n →
        invoke_steps opt c (some (.EpochNotMatch desc) :: rest) =
          .failure c (.EpochNotMatch desc) := by
  have hstep : apply_status c (.EpochNotMatch desc) opt = .err c (.EpochNotMatch desc) := by
    unfold apply_status apply_epoch_not_match_status
    simp [hacc]
  refine ⟨hstep, ?_⟩
  intro rest n hn
  unfold invoke_steps recommend_client
  rw [hn]
  simp [hstep]

def accurate_opt : InvokeOpt :=
  { request := none, accurate_epoch := true, ignore_transport_error := true }

theorem c2_accurate_epoch_surfaces_witness :
    apply_status sample_client (.EpochNotMatch staler_desc) accurate_opt =
        .err sample_client (.EpochNotMatch staler_desc) ∧
      invoke_steps accurate_opt sample_client
          (some (.EpochNotMatch staler_desc) :: [none]) =
        .failure sample_client (.EpochNotMatch staler_desc) :=
  ⟨(c2_accurate_epoch_surfaces sample_client staler_desc accurate_opt rfl).1,
   (c2_accurate_epoch_surfaces sample_client staler_desc accurate_opt rfl).2 [none] 1 rfl⟩

/-! ### Claim C4 -/

/-- C4: a Transport failure is absorbed, clearing the sticky node, exactly
when the caller set ignore_transport_error or the pending request is
read-only; read-only means Get or Scan; otherwise the Transport error is
surfaced with the state unchanged. -/
theorem c4_transport_policy (c : GroupClient) (opt : InvokeOpt) :
    ((opt.ignore_transport_error = true ∨
        (∃ r, opt.request = some r ∧ is_read_only_request r = true)) →
      apply_status c .Transport opt = .ok { c with access_node_id := none }) ∧
    (opt.ignore_transport_error = false →
      (∀ r, opt.request = some r → is_read_only_request r = false) →
      apply_status c .Transport opt = .err c .Transport) ∧
    (∀ r, is_read_only_request r = true ↔
      ((∃ g, r = .Get g) ∨ (∃ s, r = .Scan s))) := by
  refine ⟨?_, ?_, ?_⟩
  · intro h
    unfold apply_status
    rcases h with h | ⟨r, hr, hro⟩
    · simp [h]
    · simp [hr, hro]
  · intro hig hro
    unfold apply_status
    cases hreq : opt.request with
    | none => simp [hig, hreq]
    | some r => simp [hig, hreq, hro r hreq]
  · intro r
    cases r <;> simp [is_read_only_request]

def transport_write_opt : InvokeOpt :=
  request_opt (.Write ⟨10, [⟨[1], [2]⟩], []⟩)

theorem c4_transport_policy_witness :
    apply_status sample_client .Transport (request_opt (.Get ⟨10, [1]⟩)) =
        .ok { sample_client with access_node_id := none } ∧
      apply_status sample_client .Transport transport_write_opt =
        .err sample_client .Transport ∧
      is_read_only_request (.Get ⟨10, [1]⟩) = true :=
  ⟨(c4_transport_policy sample_client (request_opt (.Get ⟨10, [1]⟩))).1
      (Or.inr ⟨.Get ⟨10, [1]⟩, rfl, rfl⟩),
   (c4_transport_policy sample_client transport_write_opt).2.1 rfl
      (by intro r hr; cases hr; rfl),
   ((c4_transport_policy sample_client transport_write_opt).2.2 (.Get ⟨10, [1]⟩)).2
      (Or.inl ⟨⟨10, [1]⟩, rfl⟩)⟩

/-! ### Claim C1 -/

/-- C1: with accurate_epoch false, a strictly newer remote descriptor in
which the pending request is still executable is adopted: the epoch becomes
the remote epoch, the cursor is set to 1, the replica of the current sticky
access node is brought to index 0 of the adopted replicas, and the retry
loop continues with the updated state instead of surfacing an error. -/
theorem c1_epoch_not_match_adopts (c : GroupClient) (opt : InvokeOpt) (desc : GroupDesc)
    (r : Request) (n : Nat) (hacc : opt.accurate_epoch = false)
    (hreq : opt.request = some r) (hepoch : c.epoch < desc.epoch)
    (hexec : is_executable desc r = true) (hnode : c.access_node_id = some n) :
    ∃ c', apply_status c (.EpochNotMatch desc) opt = .ok c' ∧
      c'.epoch = desc.epoch ∧ c'.next_access_index = 1 ∧
      c'.replicas = move_node_to_first_element desc.replicas n ∧
      ((∃ rep ∈ desc.replicas, rep.node_id = n) →
        ∃ rep, c'.replicas.head? = some rep ∧ rep.node_id = n) ∧
      ∀ rest, invoke_steps opt c (some (.EpochNotMatch desc) :: rest) =
        invoke_steps opt c' rest := by
  have hstep : apply_status c (.EpochNotMatch desc) opt =
      .ok { c with
        replicas := move_node_to_first_element desc.replicas n
        epoch := desc.epoch
        next_access_index := 1 } := by
    unfold apply_status apply_epoch_not_match_status
    simp [hacc, Nat.not_le.mpr hepoch, hreq, hexec, hnode]
  refine ⟨_, hstep, rfl, rfl, rfl, ?_, ?_⟩
  · intro hex
    exact move_node_head hex
  · intro rest
    have hrec : recommend_client c = (some n, c) := by
      unfold recommend_client
      rw [hnode]
    simp [invoke_steps, hrec, hstep]

def c1_request : Request := .Get ⟨10, [109]⟩

theorem c1_epoch_not_match_adopts_witness :
    ∃ c', apply_status sample_client (.EpochNotMatch newer_desc)
        (request_opt c1_request) = .ok c' ∧
      c'.epoch = newer_desc.epoch ∧ c'.next_access_index = 1 ∧
      c'.replicas = move_node_to_first_element newer_desc.replicas 1 ∧
      ((∃ rep ∈ newer_desc.replicas, rep.node_id = 1) →
        ∃ rep, c'.replicas.head? = some rep ∧ rep.node_id = 1) ∧
      ∀ rest, invoke_steps (request_opt c1_request) sample_client
          (some (.EpochNotMatch newer_desc) :: rest) =
        invoke_steps (request_opt c1_request) c' rest :=
  c1_epoch_not_match_adopts sample_client (request_opt c1_request) newer_desc
    c1_request 1 rfl rfl (by decide) (by decide) rfl

/-! ### Claim C10 -/

theorem apply_status_no_epoch_err (opt : InvokeOpt) (hreq : opt.request = none)
    (hacc : opt.accurate_epoch = false) (c : GroupClient) (e : Error)
    (c' : GroupClient) (d : GroupDesc) :
    apply_status c e opt ≠ .err c' (.EpochNotMatch d) := by
  cases e <;>
    simp only [apply_status, apply_epoch_not_match_status, hacc, hreq,
      Bool.false_eq_true, if_false, Option.map_none', Option.getD_none,
      ne_eq, not_false_eq_true, reduceCtorEq] <;>
    (try split) <;> simp

/-- C10: when the invoke options carry no request value and accurate_epoch is
false (the options of watch_key, of the schedule RPCs issued through invoke,
and of move_out), an EpochNotMatch with a remote epoch above the local one
is absorbed by adopting the remote descriptor without consulting the
executability predicate, and the retry loop can never surface EpochNotMatch
to the caller. -/
theorem c10_no_request_absorbs (opt : InvokeOpt) (hreq : opt.request = none)
    (hacc : opt.accurate_epoch = false) :
    (∀ c desc, c.epoch < desc.epoch →
      apply_status c (.EpochNotMatch desc) opt =
        .ok { c with
          replicas := move_node_to_first_element desc.replicas (c.access_node_id.getD 0)
          epoch := desc.epoch
          next_access_index := 1 }) ∧
    (∀ outcomes c c' d, invoke_steps opt c outcomes ≠
      .failure c' (.EpochNotMatch d)) := by
  constructor
  · intro c desc hlt
    unfold apply_status apply_epoch_not_match_status
    simp [hacc, hreq, Nat.not_le.mpr hlt]
  · intro outcomes
    induction outcomes with
    | nil =>
      intro c c' d
      unfold invoke_steps
      split <;> simp
    | cons o rest ih =>
      intro c c' d
      unfold invoke_steps
      split
      · simp
      · cases o with
        | none => simp
        | some e =>
          rename_i csel _
          cases happ : apply_status csel e opt with
          | ok c2 => simpa [happ] using ih c2 c' d
          | err c2 err =>
            simp only [happ, ne_eq, CallResult.failure.injEq, not_and]
            intro _ herr
            exact absurd happ (herr ▸ apply_status_no_epoch_err opt hreq hacc csel e c2 d)
          | fatal => simp [happ]

theorem c10_no_request_absorbs_witness :
    apply_status sample_client (.EpochNotMatch newer_desc) watch_key_opt =
        .ok { sample_client with
          replicas := move_node_to_first_element newer_desc.replicas
            (sample_client.access_node_id.getD 0)
          epoch := newer_desc.epoch
          next_access_index := 1 } ∧
      invoke_steps watch_key_opt sample_client [some (.EpochNotMatch newer_desc)] ≠
        .failure sample_client (.EpochNotMatch newer_desc) :=
  ⟨(c10_no_request_absorbs watch_key_opt rfl rfl).1 sample_client newer_desc (by decide),
   (c10_no_request_absorbs watch_key_opt rfl rfl).2
      [some (.EpochNotMatch newer_desc)] sample_client sample_client newer_desc⟩

/-! ### Claim C9 -/

def c9_client : GroupClient :=
  { group_id := 1, epoch := 5, leader_state := some (1, 5),
    replicas := [⟨1, 1, 0⟩], access_node_id := some 1, next_access_index := 1 }

def c9_desc : GroupDesc :=
  { id := 1, epoch := 6, shards := [], replicas := [⟨2, 2, 0⟩] }

def c9_after : GroupClient :=
  { group_id := 1, epoch := 6, leader_state := some (1, 5),
    replicas := [⟨2, 2, 0⟩], access_node_id := some 1, next_access_index := 1 }

/-- C9 counterexample: a state satisfying the leader-at-head invariant on
which apply_epoch_not_match_status succeeds (accurate_epoch false, no
request value, newer remote epoch) yet yields a state violating the
invariant: the stale leader hint survives while the replicas are replaced
by the remote ones, which do not contain the hinted replica. -/
theorem c9_epoch_adopt_breaks_invariant :
    leader_at_head c9_client = true ∧
      apply_epoch_not_match_status c9_client c9_desc watch_key_opt = .ok c9_after ∧
      leader_at_head c9_after = false := by
  refine ⟨by decide, by decide, by decide⟩

/-- C9 (amended): the relation the code maintains is at the node-id level
and only for the two leader-updating operations: apply_group_state brings a
replica carrying the node id of the leader descriptor found in the router
map to index 0, and a non-stale apply_not_leader_status sets the hint to
the reported leader and brings a replica with that leader node id to index
0; apply_epoch_not_match_status does not preserve the leader-at-head
invariant. -/
theorem c9_leader_node_at_head (c : GroupClient) :
    (∀ gs rid t d, gs.leader_state = some (rid, t) →
      assoc_find gs.replicas rid = some d →
      ∃ rep, (apply_group_state c gs).replicas.head? = some rep ∧
        rep.node_id = d.node_id) ∧
    (∀ term leader, (∀ rid lt, c.leader_state = some (rid, lt) → lt < term) →
      (apply_not_leader_status c term (some leader)).leader_state =
          some (leader.id, term) ∧
        ∃ rep, (apply_not_leader_status c term (some leader)).replicas.head? =
          some rep ∧ rep.node_id = leader.node_id) := by
  constructor
  · intro gs rid t d hls hfind
    have hmem : d ∈ gs.replicas.map (fun entry => entry.snd) := by
      obtain ⟨entry, hentry, hsnd⟩ := Option.map_eq_some'.mp hfind
      exact hsnd ▸ List.mem_map_of_mem _ (List.mem_of_find?_eq_some hentry)
    have hres : (apply_group_state c gs).replicas =
        move_node_to_first_element (gs.replicas.map (fun entry => entry.snd))
          d.node_id := by
      unfold apply_group_state
      simp [hls, hfind]
    rw [hres]
    exact move_node_head ⟨d, hmem, rfl⟩
  · intro term leader hterm
    have hcond : (c.leader_state.map (fun p => decide (term ≤ p.snd))).getD false =
        false := by
      cases hls : c.leader_state with
      | none => rfl
      | some p =>
        obtain ⟨rid, lt⟩ := p
        simp [Nat.not_le.mpr (hterm rid lt hls)]
    have happ : apply_not_leader_status c term (some leader) =
        { c with
          access_node_id := some leader.node_id
          leader_state := some (leader.id, term)
          replicas := move_replica_to_first_element c.replicas leader } := by
      unfold apply_not_leader_status
      simp [hcond]
    rw [happ]
    exact ⟨rfl, move_replica_head c.replicas leader⟩

def router_state : RouterGroupState :=
  { id := 1, epoch := 7,
    replicas := [(1, ⟨1, 1, 0⟩), (2, ⟨2, 2, 0⟩), (3, ⟨3, 3, 0⟩)],
    leader_state := some (2, 8) }

theorem c9_leader_node_at_head_witness :
    (∃ rep, (apply_group_state sample_client router_state).replicas.head? =
        some rep ∧ rep.node_id = 2) ∧
      (apply_not_leader_status sample_client 9 (some ⟨2, 2, 0⟩)).leader_state =
          some (2, 9) ∧
        ∃ rep, (apply_not_leader_status sample_client 9
          (some ⟨2, 2, 0⟩)).replicas.head? = some rep ∧ rep.node_id = 2 :=
  ⟨(c9_leader_node_at_head sample_client).1 router_state 2 8 ⟨2, 2, 0⟩ rfl rfl,
   (c9_leader_node_at_head sample_client).2 9 ⟨2, 2, 0⟩
      (by intro rid lt h; cases h; decide)⟩

/-! ### Claim C3 -/

theorem is_target_eq (desc : GroupDesc) (sid : Nat) (key : List Nat) :
    is_target_shard_exists desc sid key =
      ((desc.shards.find? (fun s => s.id == sid)).map
        (fun s => belong_to s key)).getD false := by
  unfold is_target_shard_exists
  cases h : desc.shards.find? (fun s => s.id == sid) <;> simp [h]

theorem find_belong_iff (sid : Nat) (key : List Nat) :
    ∀ shards : List ShardDesc, (shards.map (fun s => s.id)).Nodup →
      ((((shards.find? (fun s => s.id == sid)).map
          (fun s => belong_to s key)).getD false = true) ↔
        ∃ s ∈ shards, s.id = sid ∧ belong_to s key = true) := by
  intro shards
  induction shards with
  | nil => intro _; simp
  | cons x xs ih =>
    intro hnodup
    have hx_not_mem : x.id ∉ xs.map (fun s => s.id) :=
      (List.nodup_cons.mp (by simpa using hnodup)).1
    have hnd : (xs.map (fun s => s.id)).Nodup :=
      (List.nodup_cons.mp (by simpa using hnodup)).2
    by_cases hx : x.id = sid
    · have hfind : (x :: xs).find? (fun s => s.id == sid) = some x :=
        List.find?_cons_of_pos _ (by simp [hx])
      rw [hfind]
      simp only [Option.map_some', Option.getD_some]
      constructor
      · intro hb
        exact ⟨x, List.mem_cons_self x xs, hx, hb⟩
      · rintro ⟨s, hs, hsid, hb⟩
        rcases List.mem_cons.mp hs with rfl | hs'
        · exact hb
        · have hmem : sid ∈ xs.map (fun s => s.id) := by
            rw [← hsid]
            exact List.mem_map_of_mem _ hs'
          have hnot : sid ∉ xs.map (fun s => s.id) := by
            rw [← hx]
            exact hx_not_mem
          exact absurd hmem hnot
    · have hfind : (x :: xs).find? (fun s => s.id == sid) =
          xs.find? (fun s => s.id == sid) :=
        List.find?_cons_of_neg _ (by simp [hx])
      rw [hfind, ih hnd]
      constructor
      · rintro ⟨s, hs, h1, h2⟩
        exact ⟨s, List.mem_cons_of_mem _ hs, h1, h2⟩
      · rintro ⟨s, hs, h1, h2⟩
        rcases List.mem_cons.mp hs with rfl | hs'
        · exact absurd h1 hx
        · exact ⟨s, hs', h1, h2⟩

theorem is_target_iff (desc : GroupDesc) (sid : Nat) (key : List Nat)
    (hnodup : (desc.shards.map (fun s => s.id)).Nodup) :
    is_target_shard_exists desc sid key = true ↔ shardContainsKey desc sid key := by
  rw [is_target_eq]
  exact find_belong_iff sid key desc.shards hnodup

theorem is_all_target_eq (descriptor : GroupDesc) (sid : Nat)
    (deletes : List DeleteRequest) (puts : List PutRequest) :
    is_all_target_shard_exists descriptor sid deletes puts =
      (deletes.all (fun d => is_target_shard_exists descriptor sid d.key) &&
        puts.all (fun p => is_target_shard_exists descriptor sid p.key)) := by
  unfold is_all_target_shard_exists
  cases h1 : deletes.all (fun d => is_target_shard_exists descriptor sid d.key) with
  | false => simp
  | true =>
    cases h2 : puts.all (fun p => is_target_shard_exists descriptor sid p.key) with
    | false => simp
    | true => simp

/-- C3 (amended): when the shard ids of the descriptor are pairwise
distinct, the executability predicate returns true iff some shard with the
request shard id contains every referenced key (a batch write passing iff
all its deletes and puts individually pass, every other request kind never
being executable); in general the code consults the first shard carrying
the request shard id, so the claim fails on descriptors with duplicated
shard ids. -/
theorem c3_executable_iff (desc : GroupDesc) (r : Request)
    (hnodup : (desc.shards.map (fun s => s.id)).Nodup) :
    is_executable desc r = true ↔ specExecutable desc r := by
  cases r with
  | Get req =>
    simpa only [is_executable, specExecutable] using
      is_target_iff desc req.shard_id req.user_key hnodup
  | Write req =>
    simp only [is_executable, specExecutable, is_all_target_eq,
      Bool.and_eq_true, List.all_eq_true]
    constructor
    · rintro ⟨h1, h2⟩
      exact ⟨fun d hd => (is_target_iff desc req.shard_id d.key hnodup).mp (h1 d hd),
        fun p hp => (is_target_iff desc req.shard_id p.key hnodup).mp (h2 p hp)⟩
    · rintro ⟨h1, h2⟩
      exact ⟨fun d hd => (is_target_iff desc req.shard_id d.key hnodup).mpr (h1 d hd),
        fun p hp => (is_target_iff desc req.shard_id p.key hnodup).mpr (h2 p hp)⟩
  | WriteIntent req =>
    cases hw : req.write with
    | none => simp [is_executable, specExecutable, hw]
    | some w =>
      cases w with
      | Delete d =>
        simpa only [is_executable, specExecutable, hw] using
          is_target_iff desc req.shard_id d.key hnodup
      | Put p =>
        simpa only [is_executable, specExecutable, hw] using
          is_target_iff desc req.shard_id p.key hnodup
  | CommitIntent req =>
    simpa only [is_executable, specExecutable] using
      is_target_iff desc req.shard_id req.user_key hnodup
  | ClearIntent req =>
    simpa only [is_executable, specExecutable] using
      is_target_iff desc req.shard_id req.user_key hnodup
  | Scan req => simp [is_executable, specExecutable]
  | WatchKey => simp [is_executable, specExecutable]
  | CreateShard => simp [is_executable, specExecutable]
  | ChangeReplicas => simp [is_executable, specExecutable]
  | Transfer => simp [is_executable, specExecutable]
  | MoveReplicas => simp [is_executable, specExecutable]
  | SplitShard => simp [is_executable, specExecutable]
  | MergeShard => simp [is_executable, specExecutable]
  | AcceptShard => simp [is_executable, specExecutable]

def dup_shard_desc : GroupDesc :=
  { id := 1, epoch := 1,
    shards := [⟨1, 0, [1], [2]⟩, ⟨1, 0, [], []⟩],
    replicas := [] }

/-- C3 counterexample: with two shards sharing id 1, the code consults the
first one, whose range excludes the key, and answers false, while a shard
with id 1 containing the key does exist in the descriptor. -/
theorem c3_duplicate_shard_ids :
    is_executable dup_shard_desc (.Get ⟨1, [0]⟩) = false ∧
      specExecutable dup_shard_desc (.Get ⟨1, [0]⟩) := by
  constructor
  · decide
  · exact ⟨⟨1, 0, [], []⟩, by decide, rfl, by decide⟩

theorem c3_executable_iff_witness :
    ((newer_desc.shards.map (fun s => s.id)).Nodup) ∧
      (is_executable newer_desc c1_request = true ↔
        specExecutable newer_desc c1_request) :=
  ⟨by decide, c3_executable_iff newer_desc c1_request (by decide)⟩

/-! ### Claim C8 -/

theorem apply_not_leader_epoch (c : GroupClient) (term : Nat)
    (ld : Option ReplicaDesc) :
    (apply_not_leader_status c term ld).epoch = c.epoch := by
  unfold apply_not_leader_status
  cases ld with
  | none => rfl
  | some leader =>
    dsimp only
    split <;> rfl

theorem apply_status_epoch_mono (c : GroupClient) (e : Error) (opt : InvokeOpt)
    (c' : GroupClient) (h : applyResultState (apply_status c e opt) = some c') :
    c.epoch ≤ c'.epoch := by
  cases e with
  | NotLeader g term ld =>
    have hred : apply_status c (.NotLeader g term ld) opt =
        .ok (apply_not_leader_status c term ld) := rfl
    rw [hred] at h
    simp only [applyResultState, Option.some.injEq] at h
    exact le_of_eq (by rw [← h, apply_not_leader_epoch])
  | Transport =>
    have hred : apply_status c .Transport opt =
        (if (opt.ignore_transport_error ||
            (opt.request.map is_read_only_request).getD false) = true then
          ApplyResult.ok { c with access_node_id := none }
        else
          ApplyResult.err c .Transport) := rfl
    rw [hred] at h
    by_cases hc : (opt.ignore_transport_error ||
        (opt.request.map is_read_only_request).getD false) = true
    · rw [if_pos hc] at h
      simp only [applyResultState, Option.some.injEq] at h
      exact le_of_eq (by rw [← h])
    · rw [if_neg hc] at h
      simp only [applyResultState, Option.some.injEq] at h
      exact le_of_eq (by rw [← h])
  | EpochNotMatch desc =>
    have hred : apply_status c (.EpochNotMatch desc) opt =
        apply_epoch_not_match_status c desc opt := rfl
    rw [hred] at h
    unfold apply_epoch_not_match_status at h
    by_cases h1 : opt.accurate_epoch = true
    · rw [if_pos h1] at h
      simp only [applyResultState, Option.some.injEq] at h
      exact le_of_eq (by rw [← h])
    · rw [if_neg h1] at h
      by_cases h2 : desc.epoch ≤ c.epoch
      · rw [if_pos h2] at h
        simp [applyResultState] at h
      · rw [if_neg h2] at h
        by_cases h3 : (opt.request.map (fun r => !(is_executable desc r))).getD false = true
        · rw [if_pos h3] at h
          simp only [applyResultState, Option.some.injEq] at h
          exact le_of_eq (by rw [← h])
        · rw [if_neg h3] at h
          simp only [applyResultState, Option.some.injEq] at h
          rw [← h]
          exact Nat.le_of_lt (Nat.lt_of_not_le h2)
  | GroupNotFound g =>
    rw [show apply_status c (.GroupNotFound g) opt =
        .ok { c with access_node_id := none } from rfl] at h
    simp only [applyResultState, Option.some.injEq] at h
    exact le_of_eq (by rw [← h])
  | Connect =>
    rw [show apply_status c .Connect opt =
        .ok { c with access_node_id := none } from rfl] at h
    simp only [applyResultState, Option.some.injEq] at h
    exact le_of_eq (by rw [← h])
  | CasFailed =>
    rw [show apply_status c .CasFailed opt = .err c .CasFailed from rfl] at h
    simp only [applyResultState, Option.some.injEq] at h
    exact le_of_eq (by rw [← h])
  | InvalidArgument =>
    rw [show apply_status c .InvalidArgument opt = .err c .InvalidArgument from rfl] at h
    simp only [applyResultState, Option.some.injEq] at h
    exact le_of_eq (by rw [← h])
  | TxnConflict =>
    rw [show apply_status c .TxnConflict opt = .err c .TxnConflict from rfl] at h
    simp only [applyResultState, Option.some.injEq] at h
    exact le_of_eq (by rw [← h])
  | GroupNotAccessable g =>
    rw [show apply_status c (.GroupNotAccessable g) opt =
        .err c (.GroupNotAccessable g) from rfl] at h
    simp only [applyResultState, Option.some.injEq] at h
    exact le_of_eq (by rw [← h])
  | DeadlineExceeded =>
    rw [show apply_status c .DeadlineExceeded opt = .err c .DeadlineExceeded from rfl] at h
    simp only [applyResultState, Option.some.injEq] at h
    exact le_of_eq (by rw [← h])
  | Internal =>
    rw [show apply_status c .Internal opt = .err c .Internal from rfl] at h
    simp only [applyResultState, Option.some.injEq] at h
    exact le_of_eq (by rw [← h])

theorem next_access_epoch (c : GroupClient) :
    (next_access_node_id c).2.epoch = c.epoch := by
  unfold next_access_node_id
  split
  · split <;> rfl
  · rfl

theorem recommend_epoch (c : GroupClient) :
    (recommend_client c).2.epoch = c.epoch := by
  unfold recommend_client
  cases c.access_node_id with
  | some n => rfl
  | none =>
    cases hnext : next_access_node_id c with
    | mk sel c1 =>
      have : c1.epoch = c.epoch := by
        rw [show c1 = (next_access_node_id c).2 from by rw [hnext]]
        exact next_access_epoch c
      cases sel <;> simpa using this

theorem invoke_steps_epoch_mono (opt : InvokeOpt) :
    ∀ (outcomes : List (Option Error)) (c c' : GroupClient),
      resultState (invoke_steps opt c outcomes) = some c' → c.epoch ≤ c'.epoch := by
  intro outcomes
  induction outcomes with
  | nil =>
    intro c c' h
    unfold invoke_steps at h
    cases hrec : recommend_client c with
    | mk sel c1 =>
      have hc1 : c1.epoch = c.epoch := by
        rw [show c1 = (recommend_client c).2 from by rw [hrec]]
        exact recommend_epoch c
      rw [hrec] at h
      cases sel <;>
        simp only [resultState, Option.some.injEq] at h <;>
        exact le_of_eq (by rw [← h, hc1])
  | cons o rest ih =>
    intro c c' h
    unfold invoke_steps at h
    cases hrec : recommend_client c with
    | mk sel c1 =>
      have hc1 : c1.epoch = c.epoch := by
        rw [show c1 = (recommend_client c).2 from by rw [hrec]]
        exact recommend_epoch c
      rw [hrec] at h
      cases sel with
      | none =>
        simp only [resultState, Option.some.injEq] at h
        exact le_of_eq (by rw [← h, hc1])
      | some n =>
        cases o with
        | none =>
          simp only [resultState, Option.some.injEq] at h
          exact le_of_eq (by rw [← h, hc1])
        | some e =>
          cases happ : apply_status c1 e opt with
          | ok c2 =>
            simp only [happ] at h
            have h1 : c1.epoch ≤ c2.epoch :=
              apply_status_epoch_mono c1 e opt c2 (by rw [happ]; rfl)
            have h2 : c2.epoch ≤ c'.epoch := ih c2 c' h
            exact hc1 ▸ Nat.le_trans h1 h2
          | err c2 err =>
            simp only [happ, resultState, Option.some.injEq] at h
            have h1 : c1.epoch ≤ c2.epoch :=
              apply_status_epoch_mono c1 e opt c2 (by rw [happ]; rfl)
            exact hc1 ▸ (h ▸ h1)
          | fatal =>
            simp only [happ, resultState] at h
            exact absurd h (by simp)

/-- C8: across a call of invoke_with_opt (initial state load when the epoch
is 0, then NotLeader and EpochNotMatch handling inside the retry loop), the
epoch never decreases: any completion state of the call carries an epoch at
least the starting one. -/
theorem c8_epoch_monotone (router : Option RouterGroupState) (c : GroupClient)
    (opt : InvokeOpt) (outcomes : List (Option Error)) (c' : GroupClient)
    (h : resultState (invoke_with_opt router c opt outcomes) = some c') :
    c.epoch ≤ c'.epoch := by
  unfold invoke_with_opt at h
  by_cases h0 : c.epoch = 0
  · rw [h0]
    exact Nat.zero_le _
  · rw [if_neg (by simpa using h0)] at h
    have := invoke_steps_epoch_mono opt outcomes _ c' h
    simpa using this

theorem c8_epoch_monotone_witness :
    sample_client.epoch ≤
      ({ sample_client with next_access_index := 0 } : GroupClient).epoch :=
  c8_epoch_monotone none sample_client watch_key_opt [none]
    { sample_client with next_access_index := 0 } (by decide)

/-! ### Claim C6 -/

theorem select_n_exhausted (c : GroupClient)
    (h : c.replicas.length < c.next_access_index) :
    ∀ k, select_n c k = [] := by
  intro k
  cases k with
  | zero => rfl
  | succ k =>
    have hnone : next_access_node_id c = (none, c) := by
      unfold next_access_node_id
      rw [if_neg (by omega)]
    unfold select_n
    rw [hnone]

theorem select_n_from :
    ∀ (j : Nat) (c : GroupClient) (extra : Nat), c.replicas ≠ [] → 1 ≤ j →
      c.next_access_index + j = c.replicas.length + 1 →
      select_n c (j + extra + 1) =
        (c.replicas.map (fun r => r.node_id)).drop c.next_access_index ++
          (c.replicas.map (fun r => r.node_id)).take 1 := by
  intro j
  induction j with
  | zero => intro c extra _ h1 _; omega
  | succ j ih =>
    intro c extra hne hj hsum
    have hlen : 0 < c.replicas.length := List.length_pos.mpr hne
    have hile : c.next_access_index ≤ c.replicas.length := by omega
    by_cases hj0 : j = 0
    · subst hj0
      have hi : c.next_access_index = c.replicas.length := by omega
      obtain ⟨r0, rs, hc⟩ : ∃ r0 rs, c.replicas = r0 :: rs := by
        cases hrep : c.replicas with
        | nil => exact absurd hrep hne
        | cons a l => exact ⟨a, l, rfl⟩
      have hget : c.replicas.get? (c.next_access_index % c.replicas.length) =
          some r0 := by
        rw [hi, Nat.mod_self, hc]
        rfl
      have hnext : next_access_node_id c = (some r0.node_id,
          { c with next_access_index := c.next_access_index + 1 }) := by
        unfold next_access_node_id
        rw [if_pos hile, hget]
      have hstop : ∀ k,
          select_n { c with next_access_index := c.next_access_index + 1 } k = [] := by
        intro k
        exact select_n_exhausted _ (by simp; omega) k
      unfold select_n
      simp only [hnext]
      rw [hstop]
      simp [hi, hc]
    · have hilt : c.next_access_index < c.replicas.length := by omega
      have hget : c.replicas.get? (c.next_access_index % c.replicas.length) =
          some (c.replicas.get ⟨c.next_access_index, hilt⟩) := by
        rw [Nat.mod_eq_of_lt hilt, List.get?_eq_getElem?, List.get_eq_getElem]
        exact List.getElem?_eq_getElem hilt
      have hnext : next_access_node_id c =
          (some (c.replicas.get ⟨c.next_access_index, hilt⟩).node_id,
            { c with next_access_index := c.next_access_index + 1 }) := by
        unfold next_access_node_id
        rw [if_pos hile, hget]
      unfold select_n
      simp only [hnext]
      rw [show j + 1 + extra = j + extra + 1 from by omega]
      rw [ih { c with next_access_index := c.next_access_index + 1 } extra hne
        (by omega) (by simp; omega)]
      have hmlt : c.next_access_index < (c.replicas.map (fun r => r.node_id)).length := by
        simpa using hilt
      rw [List.drop_eq_getElem_cons hmlt, List.getElem_map]
      rfl

/-- C6: from a freshly reset cursor with no sticky access node and non-empty
replicas, successive replica selections yield exactly replicas.length + 1
node ids before yielding none, the index 0 replica being selected both
first and last, and once the cursor is exhausted the call fails with
GroupNotAccessable carrying the group id. -/
theorem c6_selection_rotation (c : GroupClient) (hne : c.replicas ≠ [])
    (hidx : c.next_access_index = 0) :
    (∀ extra, select_n c (c.replicas.length + 2 + extra) =
      c.replicas.map (fun r => r.node_id) ++
        (c.replicas.map (fun r => r.node_id)).take 1) ∧
    (select_n c (c.replicas.length + 2)).length = c.replicas.length + 1 ∧
    (select_n c (c.replicas.length + 2)).head? =
      (c.replicas.map (fun r => r.node_id)).head? ∧
    (select_n c (c.replicas.length + 2)).getLast? =
      (c.replicas.map (fun r => r.node_id)).head? ∧
    (∀ c₂ opt outcomes, c₂.access_node_id = none →
      c₂.replicas.length < c₂.next_access_index →
      invoke_steps opt c₂ outcomes = .failure c₂ (.GroupNotAccessable c₂.group_id)) := by
  have hlen : 0 < c.replicas.length := List.length_pos.mpr hne
  have htrace : ∀ extra, select_n c (c.replicas.length + 2 + extra) =
      c.replicas.map (fun r => r.node_id) ++
        (c.replicas.map (fun r => r.node_id)).take 1 := by
    intro extra
    have := select_n_from (c.replicas.length + 1) c extra hne (by omega) (by omega)
    rw [show c.replicas.length + 1 + extra + 1 = c.replicas.length + 2 + extra from by
      omega] at this
    rw [this, hidx, List.drop_zero]
  obtain ⟨r0, rs, hc⟩ : ∃ r0 rs, c.replicas = r0 :: rs := by
    cases hrep : c.replicas with
    | nil => exact absurd hrep hne
    | cons a l => exact ⟨a, l, rfl⟩
  have htrace0 := htrace 0
  rw [Nat.add_zero] at htrace0
  refine ⟨htrace, ?_, ?_, ?_, ?_⟩
  · rw [htrace0]
    simp [hc]
  · rw [htrace0, hc]
    simp
  · rw [htrace0, hc]
    rw [show ((r0 :: rs).map (fun r => r.node_id)).take 1 = [r0.node_id] from by simp]
    rw [List.getLast?_concat]
    simp
  · intro c₂ opt outcomes hacc hgt
    have hrec : recommend_client c₂ = (none, c₂) := by
      unfold recommend_client next_access_node_id
      rw [hacc, if_neg (by omega)]
    cases outcomes with
    | nil =>
      unfold invoke_steps
      rw [hrec]
    | cons o rest =>
      unfold invoke_steps
      rw [hrec]

def c6_client : GroupClient :=
  { group_id := 1, epoch := 5, leader_state := none,
    replicas := [⟨1, 1, 0⟩, ⟨2, 2, 0⟩], access_node_id := none,
    next_access_index := 0 }

theorem c6_selection_rotation_witness :
    select_n c6_client 4 = [1, 2, 1] ∧
      invoke_steps watch_key_opt { c6_client with next_access_index := 3 } [] =
        .failure { c6_client with next_access_index := 3 } (.GroupNotAccessable 1) :=
  ⟨by
    have := (c6_selection_rotation c6_client (by decide) rfl).1 0
    simpa using this,
   (c6_selection_rotation c6_client (by decide) rfl).2.2.2.2
      { c6_client with next_access_index := 3 } watch_key_opt [] rfl (by decide)⟩

end Sekas
